import Mathlib

/-!
Shallow embedding of the escpos-rs core (formatter, command encoder,
instruction serialization engine, raster image pipeline, print data) and
proofs about the specified properties.

Strings are modelled as lists of characters; Rust byte lengths
(String::len) are modelled by the UTF-8 byte size of the character list,
and character counts (chars().count()) by list length.  Hash maps are
modelled as insertion-ordered association lists with overwriting insert,
which reproduces the HashMap FromIterator semantics (later entries win);
hash sets as lists.  Machine integers are modelled as Nat; where the Rust
code can panic (usize underflow in debug builds, out-of-range
replace_range, the unimplemented markdown arm) the embedding returns a
distinguished panic fault.  External collaborators (the image codec and
resize filter, the f64 luminance threshold and aspect-ratio height
computation, the QR encoder, base64) are abstracted as explicit function
parameters, never inspected by the embedded code.
-/

/-- Byte length of a string, as Rust String::len (UTF-8 bytes). -/
def byteLen (l : List Char) : Nat :=
  (l.map Char.utf8Size).sum

/-- Association-list model of std HashMap: lookup of the first matching key. -/
def hmGet {α β : Type} [DecidableEq α] : List (α × β) → α → Option β
  | [], _ => none
  | (k, v) :: rest, k' => if k = k' then some v else hmGet rest k'

/-- Association-list model of HashMap::insert: overwrites the value of an
existing key, otherwise appends the binding. -/
def hmInsert {α β : Type} [DecidableEq α] : List (α × β) → α → β → List (α × β)
  | [], k, v => [(k, v)]
  | (k', v') :: rest, k, v =>
    if k' = k then (k, v) :: rest else (k', v') :: hmInsert rest k v

/-- Model of collecting an iterator of pairs into a HashMap: sequential
inserts, so a later binding for a key overwrites an earlier one. -/
def hmFromList {α β : Type} [DecidableEq α] (l : List (α × β)) : List (α × β) :=
  l.foldl (fun m p => hmInsert m p.1 p.2) []

/-- Common fonts used in thermal printers (command/font.rs). -/
inductive Font where
  | FontA
  | FontB
  | FontC
  | FontD
  | FontE
deriving DecidableEq, Repr

/-- Byte representation of each font (Font::as_bytes). -/
def Font.as_bytes : Font → List Nat
  | .FontA => [0x00]
  | .FontB => [0x01]
  | .FontC => [0x02]
  | .FontD => [0x03]
  | .FontE => [0x04]

/-- Possible character sets (command/charset.rs). -/
inductive Charset where
  | USA | France | Germany | UK | Denmark1 | Sweden | Italy | Spain1
  | Japan | Norway | Denmark2 | Spain2 | LatinAmerica | Korea
  | SloveniaCroatia | China | Vietnam | Arabia
deriving DecidableEq, Repr

/-- Charset::as_bytes. -/
def Charset.as_bytes : Charset → List Nat
  | .USA => [0x00]
  | .France => [0x01]
  | .Germany => [0x02]
  | .UK => [0x03]
  | .Denmark1 => [0x04]
  | .Sweden => [0x05]
  | .Italy => [0x06]
  | .Spain1 => [0x07]
  | .Japan => [0x08]
  | .Norway => [0x09]
  | .Denmark2 => [0x0a]
  | .Spain2 => [0x0b]
  | .LatinAmerica => [0x0c]
  | .Korea => [0x0d]
  | .SloveniaCroatia => [0x0e]
  | .China => [0x0f]
  | .Vietnam => [0x10]
  | .Arabia => [0x11]

/-- Selectable code tables (command/code_table.rs). -/
inductive CodeTable where
  | USA
  | Latin2
deriving DecidableEq, Repr

/-- CodeTable::as_bytes. -/
def CodeTable.as_bytes : CodeTable → List Nat
  | .USA => [0x00]
  | .Latin2 => [0x02]

/-- The closed set of printer directives (command/command.rs). -/
inductive Command where
  | Cut
  | Reset
  | PrintModeDefault
  | SelectCharset (charset : Charset)
  | SelectCodeTable (code_table : CodeTable)
  | SelectFont (font : Font)
  | UnderlineOff
  | Underline1Dot
  | Underline2Dot
  | BoldOn
  | BoldOff
  | Bitmap
  | NoLine
  | ResetLine
deriving DecidableEq, Repr

/-- Command::as_bytes: each command variant maps to its fixed byte sequence. -/
def Command.as_bytes : Command → List Nat
  | .Cut => [0x1d, 0x56, 0x41, 0x96]
  | .Reset => [0x1d, 0x40]
  | .PrintModeDefault => [0x1b, 0x21, 0x00]
  | .SelectCharset charset => [0x1b, 0x52] ++ charset.as_bytes
  | .SelectCodeTable code_table => [0x1b, 0x74] ++ code_table.as_bytes
  | .SelectFont font => [0x1b, 0x4d] ++ font.as_bytes
  | .UnderlineOff => [0x1b, 0x2d, 0x00]
  | .Underline1Dot => [0x1b, 0x2d, 0x01]
  | .Underline2Dot => [0x1b, 0x2d, 0x02]
  | .BoldOn => [0x1b, 0x45, 0x01]
  | .BoldOff => [0x1b, 0x45, 0x00]
  | .Bitmap => [0x1b, 0x2a]
  | .NoLine => [0x1b, 0x33, 0x00]
  | .ResetLine => [0x1b, 0x32]

/-- Alignment for text printing (instruction/justification.rs). -/
inductive Justification where
  | Left
  | Center
  | Right
deriving DecidableEq, Repr

/-- The crate's error type (error.rs); foreign payloads (rusb, image) are
dropped since no claim inspects them. -/
inductive RtError where
  | RusbError
  | CP437Error (detail : List Char)
  | ImageError
  | NoBulkEndpoint
  | NoReplacementFound (replacement : List Char)
  | NoPrintData
  | UnsupportedFont
  | NoFontFound
  | NoImageModeFound
  | UnsupportedForPrinterConnection
  | PrinterError (detail : List Char)
  | WrongMarkdown
  | NoTables
  | NoTableFound (table : List Char)
  | NoWidth
  | NoQrContent (name : List Char)
  | NoQrContents
  | Encoding
deriving DecidableEq, Repr

/-- Outcome of running a fallible piece of the Rust code: a typed error
returned through Result, or a runtime panic / abort (usize underflow in a
format width, replace_range out of bounds, the unimplemented markdown arm). -/
inductive Fault where
  | err (e : RtError)
  | panicked
deriving DecidableEq, Repr

/-- Rust char::is_whitespace: the Unicode White_Space property. -/
def rustWhitespace (c : Char) : Bool :=
  c.toNat ∈ ([0x09, 0x0a, 0x0b, 0x0c, 0x0d, 0x20, 0x85, 0xa0, 0x1680,
    0x2000, 0x2001, 0x2002, 0x2003, 0x2004, 0x2005, 0x2006, 0x2007,
    0x2008, 0x2009, 0x200a, 0x2028, 0x2029, 0x202f, 0x205f, 0x3000] : List Nat)

/-- Accumulator form of str::split_whitespace: words of non-whitespace
characters, empty words dropped. -/
def splitWSAux : List Char → List Char → List (List Char)
  | [], cur => if cur.isEmpty then [] else [cur.reverse]
  | c :: rest, cur =>
    if rustWhitespace c then
      if cur.isEmpty then splitWSAux rest [] else cur.reverse :: splitWSAux rest []
    else
      splitWSAux rest (c :: cur)

/-- Model of str::split_whitespace. -/
def splitWS (l : List Char) : List (List Char) :=
  splitWSAux l []

/-- Model of str::split("\n"), as the pair (segment before first newline,
remaining segments). -/
def splitNl : List Char → List Char × List (List Char)
  | [] => ([], [])
  | c :: rest =>
    let p := splitNl rest
    if c = '\n' then ([], p.1 :: p.2) else (c :: p.1, p.2)

/-- The full segment list of str::split("\n") (always nonempty). -/
def splitLines (l : List Char) : List (List Char) :=
  (splitNl l).1 :: (splitNl l).2

/-- The hard-split loop of Formatter::space_split, structurally recursive
on a fuel that bounds the number of nonempty chunks (each recursive step
consumes at least one character, so the word's length is enough fuel; at
zero fuel the remaining word is empty and the loop's final step applies). -/
def hardSplitFuel (w : Nat) : Nat → List Char → List (List Char)
  | 0, l => [l.take w]
  | fuel + 1, l =>
    if l.take w = [] then [l.take w]
    else l.take w :: hardSplitFuel w fuel (l.drop w)

/-- The hard-split loop of Formatter::space_split for an over-long word:
pushes width-sized chunks, including the final empty fragment the source
loop pushes before its emptiness test stops it. -/
def hardSplit (w : Nat) (l : List Char) : List (List Char) :=
  hardSplitFuel w l.length l

/-- One word of the greedy packing loop in Formatter::space_split.  The
state is (current_line, broken_lines); lengths follow the source exactly:
current_line.len() is a byte count, word.chars().count() a char count.
In the over-long-word arm the source pushes a clone of current_line and
never clears it, which the returned state reproduces. -/
def spaceSplitStep (w : Nat) (st : List Char × List (List Char)) (word : List Char) :
    List Char × List (List Char) :=
  let cur := st.1
  let bls := st.2
  if byteLen cur + word.length + 1 < w then
    (cur ++ (if byteLen cur = 0 then [] else [' ']) ++ word, bls)
  else
    let bls := if cur.isEmpty then bls else bls ++ [cur]
    if word.length < w then (word, bls)
    else (cur, bls ++ hardSplit w word)

/-- The per-segment body of Formatter::space_split: greedy packing of the
segment's whitespace-separated words, final nonempty line flushed. -/
def spaceSplitLine (w : Nat) (line : List Char) : List (List Char) :=
  let st := (splitWS line).foldl (spaceSplitStep w) ([], [])
  if st.1.isEmpty then st.2 else st.2 ++ [st.1]

/-- Vec::join("\n") on the broken lines of one segment. -/
def joinWithNl : List (List Char) → List Char
  | [] => []
  | [l] => l
  | l :: ls => l ++ '\n' :: joinWithNl ls

/-- Formatter::space_split: split the source on newlines, pack each
segment, join each segment's lines with newlines, concatenate the segment
results with the empty separator, and append a final newline iff the last
source character is one. -/
def space_split (w : Nat) (source : List Char) : List Char :=
  let result := ((splitLines source).map (fun l => joinWithNl (spaceSplitLine w l))).flatten
  if source.getLast? = some '\n' then result ++ ['\n'] else result

/-- A decoded pixel: its channel values (3 for RGB, 4 for RGBA),
each in 0..=255 (command-relevant logic never needs that bound). -/
def Pix : Type := List Nat

/-- A decoded bitmap (the image crate's buffer): dimensions and the pixel
rows, row-major. -/
structure Img where
  width : Nat
  height : Nat
  pixels : List (List Pix)

/-- External collaborators of the raster pipeline, abstracted: the image
crate's nearest-neighbour resize, the f64 computation
floor(printer_width / (aspect_ratio * 3)) of the scaled height from the
image dimensions and the printer width, and the f64 luminance test
0.2126 R + 0.7152 G + 0.0722 B < 78. -/
structure RasterOps where
  resize : Img → Nat → Nat → Img
  newHeight : Nat → Nat → Nat → Nat
  gray : Nat → Nat → Nat → Bool

/-- The per-pixel ink bit of EscposImage::build_scaled: three channels use
the luminance threshold directly; four channels first require alpha > 64,
otherwise the pixel is transparent and contributes no ink. -/
def pixelBit (ops : RasterOps) (ps : Pix) : Nat :=
  if ps.length = 3 then
    (if ops.gray (ps.getD 0 0) (ps.getD 1 0) (ps.getD 2 0) then 1 else 0)
  else
    (if 64 < ps.getD 3 0 then
      (if ops.gray (ps.getD 0 0) (ps.getD 1 0) (ps.getD 2 0) then 1 else 0)
    else 0)

/-- The bit-packing loop of EscposImage::build_scaled: every 8th pixel row
starts a fresh printer row of printer_width zero bytes; each pixel ORs its
ink bit, shifted to position 7 - y mod 8, into byte x of printer row
y / 8.  The source indexes printer_rows with an unwrap that cannot fail
(a row is pushed whenever y mod 8 = 0); the impossible miss is a no-op here. -/
def packRows (ops : RasterOps) (pw : Nat) (rows : List (List Pix)) : List (List Nat) :=
  (rows.enum).foldl (fun prs yrow =>
    let prs := if yrow.1 % 8 = 0 then prs ++ [List.replicate pw 0] else prs
    match prs.get? (yrow.1 / 8) with
    | none => prs
    | some r =>
      let r := (yrow.2.enum).foldl (fun a xp =>
        a.set xp.1 ((a.getD xp.1 0) ||| (pixelBit ops xp.2 <<< (7 - yrow.1 % 8)))) r
      prs.set (yrow.1 / 8) r) []

/-- EscposImage::build_scaled: resize the stored bitmap to the printer
width at the f64-derived height, pack the ink bits, and emit the feed:
the no-line-spacing command, then per packed row the bitmap command, the
density byte 0x01, the width low and high bytes, the row bytes and a line
feed, then the reset-line-spacing and full reset commands. -/
def build_scaled (ops : RasterOps) (dimg : Img) (pw : Nat) : List Nat :=
  let feed := Command.NoLine.as_bytes
  let nh := ops.newHeight dimg.width dimg.height pw
  let b := ops.resize dimg pw nh
  let printerRows := packRows ops pw b.pixels
  let feed := printerRows.foldl (fun acc r =>
    acc ++ Command.Bitmap.as_bytes ++ [0x01, pw % 256, pw / 256] ++ r ++ [10]) feed
  feed ++ Command.ResetLine.as_bytes ++ Command.Reset.as_bytes

/-- EscposImage (instruction/escpos_image.rs): the base64 source string,
the decoded bitmap, the set of widths recorded for persistence, and the
width-to-feed-bytes cache. -/
structure EscposImage where
  source : List Char
  dynamic_image : Img
  cached_widths : List Nat
  cache : List (Nat × List Nat)

/-- EscposImage::cache_for: inserts the freshly built feed for the width
into the cache (and touches nothing else, in particular not
cached_widths). -/
def cache_for (ops : RasterOps) (img : EscposImage) (width : Nat) : EscposImage :=
  { img with cache := hmInsert img.cache width (build_scaled ops img.dynamic_image width) }

/-- EscposImage::feed: the cached bytes when present, otherwise the image
is built on the fly (the source logs a performance warning); the receiver
is taken immutably, so the result is never stored. -/
def feed (ops : RasterOps) (img : EscposImage) (width : Nat) : List Nat :=
  match hmGet img.cache width with
  | some f => f
  | none => build_scaled ops img.dynamic_image width

/-- The geometry of EscposImage::new (f64 scale by scale/255, overlay at
the justification offset, crop) and the two base64 codec directions,
abstracted as explicit parameters: construct is the whole
resize-overlay-crop transform of the decoded bitmap, encodeRaw is
base64::encode of the raw pixel buffer (DynamicImage::as_bytes), decode is
base64::decode followed by image::load_from_memory (which fails on bytes
that are not an encoded image). -/
structure ImgCodec where
  construct : Img → Nat → Justification → Img
  encodeRaw : Img → List Char
  decode : List Char → Option Img

/-- EscposImage::new: transform the bitmap, remember its raw bytes in
base64, and start with an empty width set and an empty cache. -/
def escposImageNew (cdc : ImgCodec) (img : Img) (scale : Nat) (j : Justification) : EscposImage :=
  let d := cdc.construct img scale j
  { source := cdc.encodeRaw d
    dynamic_image := d
    cached_widths := []
    cache := [] }

/-- The Serialize impl for EscposImage: a 2-tuple of the base64 source and
the recorded width set. -/
def serializeImage (img : EscposImage) : List Char × List Nat :=
  (img.source, img.cached_widths)

/-- EscposImageVisitor::visit_seq: decode the base64 source back into a
bitmap (failing closed when it is not an encoded image), rebuild the
image with scale 1 and left justification, then eagerly re-rasterize
every listed width into the cache. -/
def deserializeImage (ops : RasterOps) (cdc : ImgCodec) (payload : List Char × List Nat) :
    Option EscposImage :=
  match cdc.decode payload.1 with
  | none => none
  | some img => some (payload.2.foldl (fun e w => cache_for ops e w)
      (escposImageNew cdc img 1 Justification.Left))

/-- Per-print variable bindings (instruction/print_data.rs). -/
structure PrintData where
  replacements : Option (List (List Char × List Char))
  duo_tables : Option (List (List Char × List (List Char × List Char)))
  trio_tables : Option (List (List Char × List (List Char × List Char × List Char)))
  quad_tables : Option (List (List Char × List (List Char × List Char × List Char × List Char)))
  qr_contents : Option (List (List Char × List Char))

/-- PrintData::merge: each category chains the caller's entries before the
callee's and collects them into a fresh map, then demotes an empty result
to None.  Collecting inserts sequentially, so on a key collision the
entry appearing later in the chain wins. -/
def PrintData.merge (lhs rhs : PrintData) : PrintData :=
  let replacements := hmFromList ((lhs.replacements.getD []) ++ (rhs.replacements.getD []))
  let duo_tables := hmFromList ((lhs.duo_tables.getD []) ++ (rhs.duo_tables.getD []))
  let trio_tables := hmFromList ((lhs.trio_tables.getD []) ++ (rhs.trio_tables.getD []))
  let quad_tables := hmFromList ((lhs.quad_tables.getD []) ++ (rhs.quad_tables.getD []))
  let qr_contents := hmFromList ((lhs.qr_contents.getD []) ++ (rhs.qr_contents.getD []))
  { replacements := if replacements.isEmpty then none else some replacements
    duo_tables := if duo_tables.isEmpty then none else some duo_tables
    trio_tables := if trio_tables.isEmpty then none else some trio_tables
    quad_tables := if quad_tables.isEmpty then none else some quad_tables
    qr_contents := if qr_contents.isEmpty then none else some qr_contents }

/-- Printer profile (printer/printer_profile.rs): per-font column widths
and the pixel width; the connection descriptor is out of the core's scope. -/
structure PrinterProfile where
  columns_per_font : List (Font × Nat)
  width : Nat

/-- Model of the external codepage_437 CP437_CONTROL encoding of one
character, restricted to its ASCII-identity fragment: code points below
0x80 map to themselves.  The 128 extended graphics mappings are omitted
(no claim depends on them) and conservatively fail here. -/
def cp437Byte (c : Char) : Option Nat :=
  if c.toNat < 0x80 then some c.toNat else none

/-- IntoCp437::into_cp437: encodes every character or fails. -/
def into_cp437 (l : List Char) : Option (List Nat) :=
  l.mapM cp437Byte

/-- into_cp437 with the serializer's map_err(|_| Error::Encoding). -/
def cp437OrEnc (l : List Char) : Except Fault (List Nat) :=
  match into_cp437 l with
  | none => Except.error (Fault.err RtError.Encoding)
  | some bs => Except.ok bs

/-- Rust format width specifier {:>w$}: left-pad with spaces to w
characters. -/
def padLeftTo (w : Nat) (l : List Char) : List Char :=
  List.replicate (w - l.length) ' ' ++ l

/-- Rust format width specifier {:<w$}: right-pad with spaces to w
characters. -/
def padRightTo (w : Nat) (l : List Char) : List Char :=
  l ++ List.replicate (w - l.length) ' '

/-- Rust format width specifier {:^w$}: centre, the extra space going to
the right. -/
def padCenterTo (w : Nat) (l : List Char) : List Char :=
  List.replicate ((w - l.length) / 2) ' ' ++ l
    ++ List.replicate ((w - l.length) - (w - l.length) / 2) ' '

/-- Templates for recurrent prints (instruction/instruction.rs). -/
inductive Instruction where
  | Compound (instructions : List Instruction)
  | Command (command : Command)
  | VSpace (lines : Nat)
  | Text (content : List Char) (markdown : Bool) (font : Font)
      (justification : Justification) (replacements : Option (List (List Char)))
  | DuoTable (name : List Char) (header : List Char × List Char) (font : Font)
  | TrioTable (name : List Char) (header : List Char × List Char × List Char)
  | QuadTable (name : List Char) (header : List Char × List Char × List Char)
  | Image (image : EscposImage)
  | QRCode (name : List Char)
  | Cut

/-- Instruction::is_compound. -/
def Instruction.is_compound : Instruction → Bool
  | .Compound _ => true
  | _ => false

/-- impl Add for Instruction: a compound left operand absorbs the right
operand's children (or the right operand itself); a plain left operand
first becomes the singleton child list. -/
def instrAdd (a rhs : Instruction) : Instruction :=
  match a with
  | .Compound instructions =>
    match rhs with
    | .Compound rhs_instructions => .Compound (instructions ++ rhs_instructions)
    | rhs => .Compound (instructions ++ [rhs])
  | lhs =>
    match rhs with
    | .Compound rhs_instructions => .Compound (lhs :: rhs_instructions)
    | rhs => .Compound ([lhs] ++ [rhs])

instance : Add Instruction := ⟨instrAdd⟩

/-- The child sequence an operand contributes to an addition. -/
def addChildren : Instruction → List Instruction
  | .Compound instructions => instructions
  | i => [i]

/-- One non-overlapping left-to-right pass of str::replace for a nonempty
pattern. -/
def replaceAllAux (pat rep : List Char) : List Char → List Char
  | [] => []
  | c :: rest =>
    if h : pat ≠ [] ∧ pat.isPrefixOf (c :: rest) then
      rep ++ replaceAllAux pat rep ((c :: rest).drop pat.length)
    else
      c :: replaceAllAux pat rep rest
termination_by s => s.length
decreasing_by
  · have hp : 0 < pat.length := List.length_pos.mpr h.1
    simp only [List.length_drop, List.length_cons]
    omega
  · simp

/-- str::replace: an empty pattern matches at every character boundary. -/
def replaceAll (s pat rep : List Char) : List Char :=
  if pat = [] then rep ++ (s.map (fun c => c :: rep)).flatten
  else replaceAllAux pat rep s

/-- The replacement pass of the Text serialization arm: every declared key
is looked up in the print data and substituted; the first key without a
binding aborts with NoReplacementFound.  In this source snapshot
instruction.rs reads print_data.replacements as a plain map while
print_data.rs declares the field Option-wrapped; following the spec's
missing-data contract, an absent map binds no key. -/
def replStep (pd : PrintData) (s : List Char) (key : List Char) : Except Fault (List Char) :=
  match hmGet (pd.replacements.getD []) key with
  | some replacement => Except.ok (replaceAll s key replacement)
  | none => Except.error (Fault.err (RtError.NoReplacementFound key))

/-- The whole replacement pass: fold replStep over the declared keys. -/
def applyReplacements (replacements : Option (List (List Char))) (pd : PrintData)
    (content : List Char) : Except Fault (List Char) :=
  match replacements with
  | none => Except.ok content
  | some keys => keys.foldlM (replStep pd) content

/-- One justified output line of the Text arm, newline appended. -/
def formatLine (justification : Justification) (width : Nat) (line : List Char) : List Char :=
  match justification with
  | .Left => line ++ ['\n']
  | .Right => padLeftTo width line ++ ['\n']
  | .Center => padCenterTo width line ++ ['\n']

/-- The token-packing loop of the Text arm: starting from the reset
command, greedily pack whitespace tokens (byte-counted, one separating
space) into lines of at most the font width, flushing a justified,
CP437-encoded line whenever the next token does not fit, and flushing the
final nonempty line. -/
def textBody (width : Nat) (justification : Justification) (s : List Char) :
    Except Fault (List Nat) := do
  let st ← (splitWS s).foldlM (fun (st : List Char × Nat × List Nat) token => do
      if st.2.1 + byteLen token + 1 > width then
        let bs ← cp437OrEnc (formatLine justification width st.1)
        Except.ok (token, byteLen token, st.2.2 ++ bs)
      else
        let wc := st.2.1 + byteLen token
        let p : List Char × Nat := if st.1 = [] then (st.1, wc) else (st.1 ++ [' '], wc + 1)
        Except.ok (p.1 ++ token, p.2, st.2.2))
    ([], 0, Command.Reset.as_bytes)
  if st.1 = [] then Except.ok st.2.2
  else
    let bs ← cp437OrEnc (formatLine justification width st.1)
    Except.ok (st.2.2 ++ bs)

/-- One line of the DuoTable arm: the first column, the second column
right-aligned in the remaining width, a newline, CP437-encoded.  The pad
width is the usize difference width - first.len(), whose underflow is a
panic. -/
def duo_line (width : Nat) (a b : List Char) : Except Fault (List Nat) :=
  if width < byteLen a then Except.error Fault.panicked
  else cp437OrEnc (a ++ padLeftTo (width - byteLen a) b ++ ['\n'])

/-- The trio_row helper of instruction.rs: truncate each column into its
slot, marking header-independent overflow with "..", then pad the columns
left / centre / right with no separating spaces.  Positions follow the
source's byte indices at character granularity (they agree on the
single-byte text every claim uses).  The source panics when max_left or
max_right is below 2 while the column overflows, when the middle slot
width underflows, and when the third column's replace_range start exceeds
its length (the third column's overflow test compares against max_left, a
source quirk kept here). -/
def trio_row (row : List Char × List Char × List Char) (width max_left max_right : Nat) :
    Except Fault (List Char) := do
  let r0 ← if row.1.length > max_left then
      if max_left < 2 then Except.error Fault.panicked
      else Except.ok (row.1.take (max_left - 2) ++ ['.', '.'])
    else Except.ok row.1
  if max_left + max_right + 2 > width then Except.error Fault.panicked
  else
    let mw := width - max_left - max_right - 2
    let r1 := if row.2.1.length > mw then row.2.1.take mw ++ ['.', '.'] else row.2.1
    let r2 ← if row.2.2.length > max_left then
        if max_right < 2 then Except.error Fault.panicked
        else if row.2.2.length < max_right - 2 then Except.error Fault.panicked
        else Except.ok (row.2.2.take (max_right - 2) ++ ['.', '.'])
      else Except.ok row.2.2
    Except.ok (padRightTo max_left (r0.take max_left)
      ++ padCenterTo (width - max_left - max_right) (r1.take mw)
      ++ padLeftTo max_right (r2.take max_right) ++ ['\n'])

/-- The column-limit computation shared by the TrioTable and QuadTable
arms, with the source's three identical equal-thirds fallback branches
kept. -/
def trioLimits (width max_left max_middle max_right : Nat) : Nat × Nat :=
  if max_left + max_middle + max_right + 2 ≤ width then (max_left, max_right)
  else if max_middle + max_right + 2 ≤ width ∧ width - max_middle - max_right - 2 > 2 then
    (width - max_middle - max_right - 2, max_right)
  else
    let third := width / 3
    if width % 3 = 0 then (third, third)
    else if width % 3 = 1 then (third, third)
    else (third, third)

/-- External collaborators of serialization: the raster abstractions and
Instruction::qr_code (QR bitmap generation through the qrcode and image
crates, whose unwraps can panic and whose decode can fail, producing the
EscposImage that the QRCode arm then feeds at the profile width). -/
structure SerialEnv where
  ops : RasterOps
  qr_code : List Char → Except Fault EscposImage

mutual

/-- Instruction::to_vec: the single-pass depth-first serialization of an
instruction tree against a profile and per-print data; the first error
aborts the walk and the accumulated bytes are dropped with it.  The
QRCode arm inlines the recursion through Instruction::qr_code followed by
the Image arm (the generated image is fed at the profile pixel width). -/
def to_vec (env : SerialEnv) (pp : PrinterProfile) (pd : PrintData) :
    Instruction → Except Fault (List Nat)
  | .Compound instructions => toVecList env pp pd instructions
  | .Cut => Except.ok Command.Cut.as_bytes
  | .Command command => Except.ok command.as_bytes
  | .VSpace lines => Except.ok (List.replicate lines 10)
  | .Image image => Except.ok (feed env.ops image pp.width)
  | .QRCode name =>
    match pd.qr_contents with
    | some qr_contents =>
      match hmGet qr_contents name with
      | some qr_content =>
        match env.qr_code qr_content with
        | Except.ok img => Except.ok (feed env.ops img pp.width)
        | Except.error e => Except.error e
      | none => Except.error (Fault.err (RtError.NoQrContent name))
    | none => Except.error (Fault.err RtError.NoQrContents)
  | .Text content markdown font justification replacements =>
    match hmGet pp.columns_per_font font with
    | none => Except.error (Fault.err RtError.NoWidth)
    | some width =>
      match applyReplacements replacements pd content with
      | Except.error e => Except.error e
      | Except.ok replaced_string =>
        if markdown then Except.error Fault.panicked
        else
          match textBody width justification replaced_string with
          | Except.error e => Except.error e
          | Except.ok body => Except.ok ((Command.SelectFont font).as_bytes ++ body)
  | .DuoTable name header font =>
    match hmGet pp.columns_per_font font with
    | none => Except.error (Fault.err RtError.NoWidth)
    | some width =>
      match duo_line width header.1 header.2 with
      | Except.error e => Except.error e
      | Except.ok hd =>
        match pd.duo_tables with
        | some tables =>
          match hmGet tables name with
          | some table =>
            match table.foldlM (fun acc row =>
                (duo_line width row.1 row.2).map (fun bs => acc ++ bs)) ([] : List Nat) with
            | Except.error e => Except.error e
            | Except.ok body =>
              Except.ok (hd ++ (List.replicate width 45 ++ [10]) ++ body)
          | none => Except.error (Fault.err (RtError.NoTableFound name))
        | none => Except.error (Fault.err RtError.NoTables)
  | .TrioTable name header =>
    match pd.trio_tables with
    | some tables =>
      match hmGet tables name with
      | some table =>
        let max_left := table.foldl (fun m row => max m row.1.length) header.1.length
        let max_middle := table.foldl (fun m row => max m row.2.1.length) header.2.1.length
        let max_right := table.foldl (fun m row => max m row.2.2.length) header.2.2.length
        match hmGet pp.columns_per_font Font.FontA with
        | none => Except.error (Fault.err RtError.NoWidth)
        | some width =>
          let lim := trioLimits width max_left max_middle max_right
          match (trio_row header width lim.1 lim.2).bind cp437OrEnc with
          | Except.error e => Except.error e
          | Except.ok hd =>
            match table.foldlM (fun acc row =>
                ((trio_row row width lim.1 lim.2).bind cp437OrEnc).map
                  (fun bs => acc ++ bs)) ([] : List Nat) with
            | Except.error e => Except.error e
            | Except.ok body =>
              Except.ok (hd ++ (List.replicate width 45 ++ [10]) ++ body)
      | none => Except.error (Fault.err (RtError.NoTableFound name))
    | none => Except.error (Fault.err RtError.NoTables)
  | .QuadTable name header =>
    match pd.quad_tables with
    | some tables =>
      match hmGet tables name with
      | some table =>
        let max_left := table.foldl (fun m row => max m row.2.1.length) header.1.length
        let max_middle := table.foldl (fun m row => max m row.2.2.1.length) header.2.1.length
        let max_right := table.foldl (fun m row => max m row.2.2.2.length) header.2.2.length
        match hmGet pp.columns_per_font Font.FontA with
        | none => Except.error (Fault.err RtError.NoWidth)
        | some width =>
          let lim := trioLimits width max_left max_middle max_right
          match (trio_row header width lim.1 lim.2).bind cp437OrEnc with
          | Except.error e => Except.error e
          | Except.ok hd =>
            match table.foldlM (fun acc row => do
                let label ← cp437OrEnc (row.1 ++ ['\n'])
                let cols ← (trio_row (row.2.1, row.2.2.1, row.2.2.2) width lim.1 lim.2).bind cp437OrEnc
                Except.ok (acc ++ (Command.SelectFont Font.FontB).as_bytes ++ label
                  ++ (Command.SelectFont Font.FontA).as_bytes ++ cols)) ([] : List Nat) with
            | Except.error e => Except.error e
            | Except.ok body =>
              Except.ok (hd ++ (List.replicate width 45 ++ [10]) ++ body)
      | none => Except.error (Fault.err (RtError.NoTableFound name))
    | none => Except.error (Fault.err RtError.NoTables)

/-- The Compound arm's loop: serialize the children left to right,
concatenating the byte outputs; the first failing child aborts the loop
with its error. -/
def toVecList (env : SerialEnv) (pp : PrinterProfile) (pd : PrintData) :
    List Instruction → Except Fault (List Nat)
  | [] => Except.ok []
  | i :: rest =>
    match to_vec env pp pd i with
    | Except.error e => Except.error e
    | Except.ok b =>
      match toVecList env pp pd rest with
      | Except.error e => Except.error e
      | Except.ok bs => Except.ok (b ++ bs)

end

/-! Concrete fixtures used to instantiate the abstract collaborators and
evaluate the embedding at specific inputs. -/

/-- An identity raster abstraction: resize returns the bitmap unchanged,
the height computation returns zero, the luminance test reports white. -/
def opsId : RasterOps := ⟨fun i _ _ => i, fun _ _ _ => 0, fun _ _ _ => false⟩

/-- A serialization environment whose QR generation always fails. -/
def envId : SerialEnv := ⟨opsId, fun _ => Except.error (Fault.err RtError.ImageError)⟩

/-- A profile knowing a 16-column width for FontA and an 8-dot pixel width. -/
def ppA16 : PrinterProfile := ⟨[(Font.FontA, 16)], 8⟩

/-- A profile with no font widths at all. -/
def ppNoFont : PrinterProfile := ⟨[], 8⟩

/-- Print data supplying nothing. -/
def pdEmpty : PrintData := ⟨none, none, none, none, none⟩

/-- A tiny 2 by 2 all-black RGB bitmap. -/
def imgBase : Img := ⟨2, 2, [[[0, 0, 0], [0, 0, 0]], [[0, 0, 0], [0, 0, 0]]]⟩

/-- A codec whose construct is the identity on the bitmap and whose decode
always yields the tiny bitmap. -/
def cdcId : ImgCodec := ⟨fun i _ _ => i, fun _ => [], fun _ => some imgBase⟩

/-- A fresh EscposImage over the tiny bitmap (empty width set and cache). -/
def imgEx : EscposImage := escposImageNew cdcId imgBase 255 Justification.Left

/-! Generic helper lemmas. -/

/-- A fold preserves an invariant preserved by each step. -/
theorem foldl_preserve {σ α : Type} (P : σ → Prop) (f : σ → α → σ) :
    ∀ (l : List α) (s : σ), P s → (∀ t a, P t → a ∈ l → P (f t a)) → P (l.foldl f s) := by
  intro l
  induction l with
  | nil => intro s hs _; exact hs
  | cons a rest ih =>
    intro s hs hf
    exact ih (f s a) (hf s a hs (by simp)) (fun t b ht hb => hf t b ht (by simp [hb]))

/-- Looking up the key just inserted yields the inserted value. -/
theorem hmGet_hmInsert {α β : Type} [DecidableEq α] (m : List (α × β)) (k : α) (v : β) :
    hmGet (hmInsert m k v) k = some v := by
  induction m with
  | nil => simp [hmInsert, hmGet]
  | cons p rest ih =>
    by_cases h : p.1 = k
    · simp [hmInsert, h, hmGet]
    · simp [hmInsert, h, hmGet, ih]

/-- byteLen distributes over cons. -/
theorem byteLen_cons (c : Char) (l : List Char) :
    byteLen (c :: l) = c.utf8Size + byteLen l := by
  simp [byteLen]

/-- A string's character count never exceeds its UTF-8 byte count. -/
theorem length_le_byteLen (l : List Char) : l.length ≤ byteLen l := by
  induction l with
  | nil => simp [byteLen]
  | cons c rest ih =>
    have hc : 0 < c.utf8Size := Char.utf8Size_pos c
    simp only [byteLen_cons, List.length_cons]
    omega

/-- A string has zero UTF-8 bytes exactly when it is empty. -/
theorem byteLen_eq_zero (l : List Char) : byteLen l = 0 ↔ l = [] := by
  cases l with
  | nil => simp [byteLen]
  | cons c rest =>
    have hc : 0 < c.utf8Size := Char.utf8Size_pos c
    simp only [byteLen_cons]
    constructor
    · intro h; omega
    · intro h; cases h

/-- Addition always produces the compound of the two operands' child
contributions. -/
theorem instrAdd_eq (a b : Instruction) :
    instrAdd a b = Instruction.Compound (addChildren a ++ addChildren b) := by
  cases a <;> cases b <;> rfl

/-- A non-compound operand contributes itself as a singleton. -/
theorem addChildren_of_not_compound (a : Instruction) (h : a.is_compound = false) :
    addChildren a = [a] := by
  cases a <;> first | rfl | simp [Instruction.is_compound] at h

/-- C2: for non-compound A, B, C, A + B is Compound [A, B] and
Compound [A, B] + C is Compound [A, B, C]; moreover instruction addition
is associative on the nose (hence order-preserving on the flattened child
sequence) for all operands. -/
theorem instruction_add_spec (a b c : Instruction)
    (ha : a.is_compound = false) (hb : b.is_compound = false)
    (hc : c.is_compound = false) :
    instrAdd a b = Instruction.Compound [a, b] ∧
    instrAdd (Instruction.Compound [a, b]) c = Instruction.Compound [a, b, c] ∧
    ∀ x y z : Instruction,
      instrAdd (instrAdd x y) z = instrAdd x (instrAdd y z) ∧
      addChildren (instrAdd (instrAdd x y) z) = addChildren (instrAdd x (instrAdd y z)) := by
  have hA := addChildren_of_not_compound a ha
  have hB := addChildren_of_not_compound b hb
  have hC := addChildren_of_not_compound c hc
  refine ⟨by rw [instrAdd_eq a b, hA, hB]; rfl,
    by rw [instrAdd_eq (Instruction.Compound [a, b]) c, hC]; rfl, ?_⟩
  intro x y z
  have hxy : addChildren (instrAdd x y) = addChildren x ++ addChildren y := by
    rw [instrAdd_eq x y]; rfl
  have hyz : addChildren (instrAdd y z) = addChildren y ++ addChildren z := by
    rw [instrAdd_eq y z]; rfl
  constructor
  · rw [instrAdd_eq (instrAdd x y) z, instrAdd_eq x (instrAdd y z), hxy, hyz, List.append_assoc]
  · rw [instrAdd_eq (instrAdd x y) z, instrAdd_eq x (instrAdd y z)]
    show addChildren (instrAdd x y) ++ addChildren z
      = addChildren x ++ addChildren (instrAdd y z)
    rw [hxy, hyz, List.append_assoc]

/-- Witness for C2 at Cut, VSpace 1 and Cut: the concrete additions. -/
theorem instruction_add_spec_witness :
    instrAdd Instruction.Cut (Instruction.VSpace 1)
      = Instruction.Compound [Instruction.Cut, Instruction.VSpace 1] ∧
    instrAdd (Instruction.Compound [Instruction.Cut, Instruction.VSpace 1]) Instruction.Cut
      = Instruction.Compound [Instruction.Cut, Instruction.VSpace 1, Instruction.Cut] := by
  have h := instruction_add_spec Instruction.Cut (Instruction.VSpace 1) Instruction.Cut rfl rfl rfl
  exact ⟨h.1, h.2.1⟩

/-- C5 (code bug): at a replacement key bound on both sides, merge keeps
the right-hand (callee) value, because chaining the caller's entries
before the callee's and then collecting lets the later, callee entry
overwrite — the opposite of the documented left bias. -/
theorem merge_right_biased_at_collision :
    hmGet ((PrintData.merge
        ⟨some [(['k'], ['a'])], none, none, none, none⟩
        ⟨some [(['k'], ['b'])], none, none, none, none⟩).replacements.getD []) ['k']
      = some ['b'] ∧ (['b'] : List Char) ≠ ['a'] := by
  constructor
  · rfl
  · decide

/-- Unfolding of the Compound loop on a cons cell. -/
theorem toVecList_cons (env : SerialEnv) (pp : PrinterProfile) (pd : PrintData)
    (i : Instruction) (rest : List Instruction) :
    toVecList env pp pd (i :: rest) =
      match to_vec env pp pd i with
      | Except.error e => Except.error e
      | Except.ok b =>
        match toVecList env pp pd rest with
        | Except.error e => Except.error e
        | Except.ok bs => Except.ok (b ++ bs) := rfl

/-- C4: the Compound arm concatenates its children's serializations in
order when they all succeed, and the first failing child (after an
all-successful prefix) aborts the walk with exactly that child's error,
returning no bytes to the caller. -/
theorem compound_concat_and_fail_fast (env : SerialEnv) (pp : PrinterProfile)
    (pd : PrintData) (xs : List Instruction) :
    (∀ bs : List (List Nat), xs.map (to_vec env pp pd) = bs.map Except.ok →
      to_vec env pp pd (Instruction.Compound xs) = Except.ok bs.flatten) ∧
    (∀ (pre : List Instruction) (x : Instruction) (post : List Instruction) (e : Fault),
      xs = pre ++ x :: post →
      (∀ y ∈ pre, ∃ b, to_vec env pp pd y = Except.ok b) →
      to_vec env pp pd x = Except.error e →
      to_vec env pp pd (Instruction.Compound xs) = Except.error e) := by
  constructor
  · show ∀ bs : List (List Nat), xs.map (to_vec env pp pd) = bs.map Except.ok →
      toVecList env pp pd xs = Except.ok bs.flatten
    induction xs with
    | nil =>
      intro bs h
      have hb : bs = [] := by
        cases bs with
        | nil => rfl
        | cons b bs' => simp at h
      subst hb
      rfl
    | cons i rest ih =>
      intro bs h
      cases bs with
      | nil => simp at h
      | cons b bs' =>
        simp only [List.map_cons, List.cons.injEq] at h
        rw [toVecList_cons, h.1, ih bs' h.2]
        simp
  · show ∀ (pre : List Instruction) (x : Instruction) (post : List Instruction) (e : Fault),
      xs = pre ++ x :: post →
      (∀ y ∈ pre, ∃ b, to_vec env pp pd y = Except.ok b) →
      to_vec env pp pd x = Except.error e →
      toVecList env pp pd xs = Except.error e
    intro pre
    induction pre generalizing xs with
    | nil =>
      intro x post e hxs _ hx
      subst hxs
      simp only [List.nil_append]
      rw [toVecList_cons, hx]
    | cons y pre' ih =>
      intro x post e hxs hpre hx
      subst hxs
      obtain ⟨b, hb⟩ := hpre y (by simp)
      rw [List.cons_append, toVecList_cons, hb,
        ih (pre' ++ x :: post) x post e rfl (fun y' hy' => hpre y' (by simp [hy'])) hx]

/-- Witness for C4: a fully successful compound concatenates in order; a
compound whose second child hits the no-tables error returns exactly that
error. -/
theorem compound_concat_and_fail_fast_witness :
    to_vec envId ppA16 pdEmpty (Instruction.Compound [Instruction.Cut, Instruction.VSpace 2])
      = Except.ok [0x1d, 0x56, 0x41, 0x96, 10, 10] ∧
    to_vec envId ppA16 pdEmpty (Instruction.Compound
        [Instruction.Cut, Instruction.DuoTable ['t'] (['a'], ['b']) Font.FontA])
      = Except.error (Fault.err RtError.NoTables) := by
  constructor
  · exact (compound_concat_and_fail_fast envId ppA16 pdEmpty _).1
      [[0x1d, 0x56, 0x41, 0x96], [10, 10]] rfl
  · exact (compound_concat_and_fail_fast envId ppA16 pdEmpty _).2
      [Instruction.Cut] (Instruction.DuoTable ['t'] (['a'], ['b']) Font.FontA) []
      (Fault.err RtError.NoTables) rfl
      (fun y hy => ⟨[0x1d, 0x56, 0x41, 0x96], by
        have hcut : y = Instruction.Cut := by simpa using hy
        rw [hcut]; rfl⟩) rfl

/-- C3 counterexample: a DuoTable serialized against a profile that knows
no width for its font returns NoWidth, not NoTables, although the
print data's duo-table set is absent — the claim's unconditional statement
fails. -/
theorem duo_table_no_tables_cex :
    pdEmpty.duo_tables = none ∧
    to_vec envId ppNoFont pdEmpty (Instruction.DuoTable ['t'] (['a'], ['b']) Font.FontA)
      = Except.error (Fault.err RtError.NoWidth) ∧
    RtError.NoWidth ≠ RtError.NoTables := by
  refine ⟨rfl, rfl, by decide⟩

/-- The replacement loop errors with the first key absent from the map,
provided every earlier key is bound. -/
theorem applyReplacements_first_missing (pd : PrintData) (key : List Char)
    (hkey : hmGet (pd.replacements.getD []) key = none) :
    ∀ (pre post : List (List Char)) (content : List Char),
      (∀ k ∈ pre, ∃ v, hmGet (pd.replacements.getD []) k = some v) →
      applyReplacements (some (pre ++ key :: post)) pd content
        = Except.error (Fault.err (RtError.NoReplacementFound key)) := by
  intro pre
  induction pre with
  | nil =>
    intro post content _
    show (key :: post).foldlM (replStep pd) content = _
    have hstep : replStep pd content key
        = Except.error (Fault.err (RtError.NoReplacementFound key)) := by
      unfold replStep
      rw [hkey]
    rw [List.foldlM_cons, hstep]
    rfl
  | cons k pre' ih =>
    intro post content hpre
    obtain ⟨v, hv⟩ := hpre k (by simp)
    have hstep : replStep pd content k = Except.ok (replaceAll content k v) := by
      unfold replStep
      rw [hv]
    show ((k :: (pre' ++ key :: post)).foldlM (replStep pd) content) = _
    simp only [List.foldlM_cons, hstep]
    have := ih post (replaceAll content k v) (fun k' hk' => hpre k' (by simp [hk']))
    simpa [applyReplacements] using this

/-- C3 (amended): provided serialization reaches the table lookup — the
profile knows a width for the table's font, the header's first column fits
that width and the header line is CP437-encodable — a DuoTable serialized
against print data without a duo-table set returns exactly the NoTables
error and no bytes; and a Text instruction over a profile that knows the
font's width, whose declared keys contain a key absent from the
replacement map (all earlier declared keys being bound), returns exactly
NoReplacementFound naming that key. -/
theorem missing_data_errors (env : SerialEnv) (pp : PrinterProfile) (pd : PrintData)
    (name : List Char) (header : List Char × List Char) (font : Font) (width : Nat)
    (hw : hmGet pp.columns_per_font font = some width)
    (hdu : pd.duo_tables = none)
    (hfit : byteLen header.1 ≤ width)
    (henc : ∃ bs, into_cp437 (header.1 ++ padLeftTo (width - byteLen header.1) header.2 ++ ['\n'])
        = some bs) :
    to_vec env pp pd (Instruction.DuoTable name header font)
      = Except.error (Fault.err RtError.NoTables) ∧
    ∀ (content : List Char) (markdown : Bool) (just : Justification)
      (pre post : List (List Char)) (key : List Char) (font2 : Font) (w2 : Nat),
      hmGet pp.columns_per_font font2 = some w2 →
      (∀ k ∈ pre, ∃ v, hmGet (pd.replacements.getD []) k = some v) →
      hmGet (pd.replacements.getD []) key = none →
      to_vec env pp pd (Instruction.Text content markdown font2 just (some (pre ++ key :: post)))
        = Except.error (Fault.err (RtError.NoReplacementFound key)) := by
  constructor
  · obtain ⟨bs, hbs⟩ := henc
    have hdl : duo_line width header.1 header.2 = Except.ok bs := by
      unfold duo_line
      rw [if_neg (by omega)]
      unfold cp437OrEnc
      rw [hbs]
    simp only [to_vec, hw, hdl, hdu]
  · intro content markdown just pre post key font2 w2 hw2 hpre hkey
    have happ := applyReplacements_first_missing pd key hkey pre post content hpre
    simp only [to_vec, hw2, happ]

/-- Witness for C3 at concrete inputs: a DuoTable against empty print
data yields NoTables; a Text with the single unbound key "%k%" yields
NoReplacementFound "%k%". -/
theorem missing_data_errors_witness :
    to_vec envId ppA16 pdEmpty (Instruction.DuoTable ['t'] (['a'], ['b']) Font.FontA)
      = Except.error (Fault.err RtError.NoTables) ∧
    to_vec envId ppA16 pdEmpty (Instruction.Text ['x'] false Font.FontA Justification.Left
        (some [['%', 'k', '%']]))
      = Except.error (Fault.err (RtError.NoReplacementFound ['%', 'k', '%'])) := by
  have h := missing_data_errors envId ppA16 pdEmpty ['t'] (['a'], ['b']) Font.FontA 16
    rfl rfl (by decide) ⟨_, rfl⟩
  refine ⟨h.1, ?_⟩
  have h2 := h.2 ['x'] false Justification.Left [] [] ['%', 'k', '%'] Font.FontA 16
    rfl (by intro k hk; cases hk) rfl
  simpa using h2

/-- C7: rasterization is a pure function of the stored bitmap (two images
with the same bitmap rasterize byte-identically for every width), and
after cache_for(w) the cache holds the built bytes and feed(w) returns
exactly those cached bytes. -/
theorem raster_deterministic_and_cached (ops : RasterOps) (i1 i2 : EscposImage)
    (w : Nat) (h : i1.dynamic_image = i2.dynamic_image) :
    build_scaled ops i1.dynamic_image w = build_scaled ops i2.dynamic_image w ∧
    hmGet (cache_for ops i1 w).cache w = some (build_scaled ops i1.dynamic_image w) ∧
    feed ops (cache_for ops i1 w) w = build_scaled ops i1.dynamic_image w := by
  have hc : hmGet (cache_for ops i1 w).cache w = some (build_scaled ops i1.dynamic_image w) := by
    show hmGet (hmInsert i1.cache w (build_scaled ops i1.dynamic_image w)) w = _
    exact hmGet_hmInsert i1.cache w (build_scaled ops i1.dynamic_image w)
  refine ⟨by rw [h], hc, ?_⟩
  show (match hmGet (cache_for ops i1 w).cache w with
    | some f => f
    | none => build_scaled ops (cache_for ops i1 w).dynamic_image w) = _
  rw [hc]

/-- Witness for C7 at the tiny bitmap and width 4. -/
theorem raster_deterministic_and_cached_witness :
    build_scaled opsId imgEx.dynamic_image 4 = build_scaled opsId imgEx.dynamic_image 4 ∧
    hmGet (cache_for opsId imgEx 4).cache 4 = some (build_scaled opsId imgEx.dynamic_image 4) ∧
    feed opsId (cache_for opsId imgEx 4) 4 = build_scaled opsId imgEx.dynamic_image 4 :=
  raster_deterministic_and_cached opsId imgEx imgEx 4 rfl

/-- C8 counterexample: feed borrows the image immutably, so after a first
feed(w) on an image whose cache has no entry for w, the bytes are computed
on the fly and the image's cache still has no entry for w. -/
theorem feed_does_not_populate_cache_cex :
    hmGet imgEx.cache 4 = none ∧
    feed opsId imgEx 4 = build_scaled opsId imgEx.dynamic_image 4 ∧
    hmGet imgEx.cache 4 = none := ⟨rfl, rfl, rfl⟩

/-- C8 (amended): after cache_for(w) the cache holds an entry for w; a
feed(w) without a cached entry computes the rasterization on demand and
returns it (a logged warning, never a failure), leaving the cache — which
feed cannot mutate — unchanged. -/
theorem cache_population (ops : RasterOps) (img : EscposImage) (w : Nat)
    (hmiss : hmGet img.cache w = none) :
    hmGet (cache_for ops img w).cache w = some (build_scaled ops img.dynamic_image w) ∧
    feed ops img w = build_scaled ops img.dynamic_image w := by
  constructor
  · show hmGet (hmInsert img.cache w (build_scaled ops img.dynamic_image w)) w = _
    exact hmGet_hmInsert img.cache w (build_scaled ops img.dynamic_image w)
  · show (match hmGet img.cache w with
      | some f => f
      | none => build_scaled ops img.dynamic_image w) = _
    rw [hmiss]

/-- Witness for C8 at the tiny bitmap and width 4. -/
theorem cache_population_witness :
    hmGet (cache_for opsId imgEx 4).cache 4 = some (build_scaled opsId imgEx.dynamic_image 4) ∧
    feed opsId imgEx 4 = build_scaled opsId imgEx.dynamic_image 4 :=
  cache_population opsId imgEx 4 rfl

/-- C6 (code bug): cache_for records nothing in cached_widths, so
persisting an image whose cache was populated emits an empty width list,
and the loaded image re-rasterizes nothing: the cache entry for width 384
present before persistence is absent after the round trip. -/
theorem image_roundtrip_loses_cache :
    (∀ (ops : RasterOps) (img : EscposImage) (w : Nat),
      (cache_for ops img w).cached_widths = img.cached_widths) ∧
    (cache_for opsId imgEx 384).cache
      = [(384, build_scaled opsId imgEx.dynamic_image 384)] ∧
    (serializeImage (cache_for opsId imgEx 384)).2 = [] ∧
    (deserializeImage opsId cdcId (serializeImage (cache_for opsId imgEx 384))).map
        EscposImage.cache = some [] := by
  exact ⟨fun ops img w => rfl, rfl, rfl, rfl⟩

/-- A fold appending a framed row each step equals the flattened map of
the framing. -/
theorem foldl_frame (B d : List Nat) (t : Nat) :
    ∀ (l : List (List Nat)) (a : List Nat),
      l.foldl (fun acc r => acc ++ B ++ d ++ r ++ [t]) a
        = a ++ (l.map (fun r => B ++ d ++ r ++ [t])).flatten := by
  intro l
  induction l with
  | nil => intro a; simp
  | cons x rest ih =>
    intro a
    simp only [List.foldl_cons, List.map_cons, List.flatten_cons, ih]
    simp [List.append_assoc]

/-- Every packed printer row has exactly printer_width bytes: rows start
as printer_width zeros and are only modified by in-place byte updates. -/
theorem packRows_row_length (ops : RasterOps) (pw : Nat) (rows : List (List Pix)) :
    ∀ r ∈ packRows ops pw rows, r.length = pw := by
  refine foldl_preserve (fun (prs : List (List Nat)) => ∀ r ∈ prs, r.length = pw) _ rows.enum []
    (fun r hr => absurd hr (List.not_mem_nil r)) ?_
  intro prs yrow hInv _
  have hInv1 : ∀ r ∈ (if yrow.1 % 8 = 0 then prs ++ [List.replicate pw 0] else prs),
      r.length = pw := by
    by_cases h8 : yrow.1 % 8 = 0
    · simp only [h8, if_pos]
      intro r hr
      rcases List.mem_append.mp hr with hl | hl
      · exact hInv r hl
      · simp at hl
        simp [hl]
    · simpa [h8] using hInv
  set prs1 := if yrow.1 % 8 = 0 then prs ++ [List.replicate pw 0] else prs with hprs1
  cases hget : prs1[yrow.1 / 8]? with
  | none => simpa [hget] using hInv1
  | some r =>
    have hrmem : r ∈ prs1 := List.getElem?_mem hget
    have hrlen : r.length = pw := hInv1 r hrmem
    have hr2 : ((yrow.2.enum).foldl (fun (a : List Nat) xp =>
        a.set xp.1 ((a.getD xp.1 0) ||| (pixelBit ops xp.2 <<< (7 - yrow.1 % 8)))) r).length
        = pw := by
      refine foldl_preserve (fun a => a.length = pw) _ yrow.2.enum r hrlen ?_
      intro t a ht _
      simpa using ht
    simp only [List.get?_eq_getElem?, hget]
    intro x hx
    rcases List.mem_or_eq_of_mem_set hx with hl | hl
    · exact hInv1 x hl
    · rw [hl]; exact hr2

/-- C9: the rasterized feed is exactly the disable-line-spacing command,
then per packed 8-pixel-row group (in order) the bitmap command, the
density byte 0x01, the bytes w mod 256 and w div 256, the group's w
packed column bytes and a line-feed byte, then the reset-line-spacing and
full reset commands. -/
theorem build_scaled_framing (ops : RasterOps) (dimg : Img) (pw : Nat) :
    build_scaled ops dimg pw =
      Command.NoLine.as_bytes
        ++ ((packRows ops pw (ops.resize dimg pw (ops.newHeight dimg.width dimg.height pw)).pixels).map
            (fun r => Command.Bitmap.as_bytes ++ [0x01, pw % 256, pw / 256] ++ r ++ [10])).flatten
        ++ Command.ResetLine.as_bytes ++ Command.Reset.as_bytes ∧
    ∀ r ∈ packRows ops pw (ops.resize dimg pw (ops.newHeight dimg.width dimg.height pw)).pixels,
      r.length = pw := by
  constructor
  · show ((packRows ops pw (ops.resize dimg pw (ops.newHeight dimg.width dimg.height pw)).pixels).foldl
        (fun acc r => acc ++ Command.Bitmap.as_bytes ++ [0x01, pw % 256, pw / 256] ++ r ++ [10])
        Command.NoLine.as_bytes)
      ++ Command.ResetLine.as_bytes ++ Command.Reset.as_bytes = _
    rw [foldl_frame]
  · exact packRows_row_length ops pw _

/-- The token-packing loop reads its input only through its whitespace
token sequence. -/
theorem textBody_congr (width : Nat) (just : Justification) (s1 s2 : List Char)
    (h : splitWS s1 = splitWS s2) : textBody width just s1 = textBody width just s2 := by
  unfold textBody
  rw [h]

/-- C10: with markdown off, a Text instruction's serialization depends on
its content only through the whitespace-token sequence of the
replaced content — two contents with equal token sequences (for example,
newline-separated versus space-separated words) serialize to identical
bytes for every font with a configured width and every justification. -/
theorem text_output_depends_on_tokens (env : SerialEnv) (pp : PrinterProfile)
    (pd : PrintData) (font : Font) (width : Nat) (just : Justification)
    (repl : Option (List (List Char))) (c1 c2 s1 s2 : List Char)
    (hw : hmGet pp.columns_per_font font = some width)
    (h1 : applyReplacements repl pd c1 = Except.ok s1)
    (h2 : applyReplacements repl pd c2 = Except.ok s2)
    (ht : splitWS s1 = splitWS s2) :
    to_vec env pp pd (Instruction.Text c1 false font just repl)
      = to_vec env pp pd (Instruction.Text c2 false font just repl) := by
  simp only [to_vec, hw, h1, h2]
  rw [textBody_congr width just s1 s2 ht]

/-- Witness for C10: "a\nb" and "a b" serialize to identical bytes. -/
theorem text_output_depends_on_tokens_witness :
    to_vec envId ppA16 pdEmpty
        (Instruction.Text ['a', '\n', 'b'] false Font.FontA Justification.Left none)
      = to_vec envId ppA16 pdEmpty
        (Instruction.Text ['a', ' ', 'b'] false Font.FontA Justification.Left none) :=
  text_output_depends_on_tokens envId ppA16 pdEmpty Font.FontA 16 Justification.Left
    none ['a', '\n', 'b'] ['a', ' ', 'b'] ['a', '\n', 'b'] ['a', ' ', 'b']
    rfl rfl rfl (by decide)

/-- C1 counterexample: for width 5, every word of "abc\nabc" has at most
5 characters, yet space_split joins the two newline-separated segments
with no separator, producing the single 6-character line "abcabc"; and
for width 4 the exactly-4-character word "aaaa" takes the hard-split
path, whose loop pushes a final empty fragment, so the output "aaaa\n"
gains a trailing newline the input does not have. -/
theorem space_split_cex :
    (∀ wd ∈ splitWS ['a', 'b', 'c', '\n', 'a', 'b', 'c'], wd.length ≤ 5) ∧
    ¬ (∀ line ∈ splitLines (space_split 5 ['a', 'b', 'c', '\n', 'a', 'b', 'c']),
        line.length ≤ 5) ∧
    (∀ wd ∈ splitWS ['a', 'a', 'a', 'a'], wd.length ≤ 4) ∧
    (space_split 4 ['a', 'a', 'a', 'a']).getLast? = some '\n' ∧
    (['a', 'a', 'a', 'a'] : List Char).getLast? ≠ some '\n' := by
  decide

/-- Words produced by split_whitespace contain no whitespace characters. -/
theorem splitWSAux_no_ws :
    ∀ (l cur : List Char), (∀ c ∈ cur, rustWhitespace c = false) →
      ∀ wd ∈ splitWSAux l cur, ∀ c ∈ wd, rustWhitespace c = false := by
  intro l
  induction l with
  | nil =>
    intro cur hcur wd hwd c hc
    by_cases he : cur.isEmpty
    · simp [splitWSAux, he] at hwd
    · simp [splitWSAux, he] at hwd
      subst hwd
      exact hcur c (by simpa using hc)
  | cons a rest ih =>
    intro cur hcur wd hwd c hc
    cases hws : rustWhitespace a with
    | true =>
      by_cases he : cur.isEmpty
      · have hm : wd ∈ splitWSAux rest [] := by
          simpa [splitWSAux, hws, he] using hwd
        exact ih [] (by simp) wd hm c hc
      · have hm : wd = cur.reverse ∨ wd ∈ splitWSAux rest [] := by
          simpa [splitWSAux, hws, he] using hwd
        rcases hm with h | h
        · subst h; exact hcur c (by simpa using hc)
        · exact ih [] (by simp) wd h c hc
    | false =>
      have hm : wd ∈ splitWSAux rest (a :: cur) := by
        simpa [splitWSAux, hws] using hwd
      refine ih (a :: cur) ?_ wd hm c hc
      intro c' hc'
      rcases List.mem_cons.mp hc' with h | h
      · subst h; exact hws
      · exact hcur c' h

/-- Words produced by split_whitespace contain no whitespace characters. -/
theorem splitWS_no_ws (l : List Char) :
    ∀ wd ∈ splitWS l, ∀ c ∈ wd, rustWhitespace c = false :=
  splitWSAux_no_ws l [] (by simp)

/-- split("\n") of a newline-free string is that single segment. -/
theorem splitNl_of_no_nl : ∀ (l : List Char), '\n' ∉ l → splitNl l = (l, []) := by
  intro l
  induction l with
  | nil => intro _; rfl
  | cons c rest ih =>
    intro h
    have hc : ¬(c = '\n') := fun hc => h (by simp [hc])
    have hr : '\n' ∉ rest := fun hr => h (by simp [hr])
    simp [splitNl, hc, ih hr]

/-- split("\n") distributes over a newline-free prefix. -/
theorem splitNl_append_no_nl :
    ∀ (a : List Char), '\n' ∉ a → ∀ (r : List Char),
      splitNl (a ++ r) = (a ++ (splitNl r).1, (splitNl r).2) := by
  intro a
  induction a with
  | nil => intro _ r; simp
  | cons c rest ih =>
    intro h r
    have hc : ¬(c = '\n') := fun hc => h (by simp [hc])
    have hr : '\n' ∉ rest := fun hr => h (by simp [hr])
    simp [splitNl, hc, ih hr r]

/-- Joining nonsplittable lines with newlines and splitting again gives
the lines back. -/
theorem splitLines_joinWithNl :
    ∀ (bls : List (List Char)), bls ≠ [] → (∀ l ∈ bls, '\n' ∉ l) →
      splitLines (joinWithNl bls) = bls := by
  intro bls
  induction bls with
  | nil => intro h _; cases h rfl
  | cons l rest ih =>
    intro _ hnl
    cases rest with
    | nil =>
      show splitLines (joinWithNl [l]) = [l]
      have h1 := splitNl_of_no_nl l (hnl l (by simp))
      simp [joinWithNl, splitLines, h1]
    | cons l2 rest2 =>
      show splitLines (l ++ '\n' :: joinWithNl (l2 :: rest2)) = l :: l2 :: rest2
      have h1 := splitNl_append_no_nl l (hnl l (by simp)) ('\n' :: joinWithNl (l2 :: rest2))
      have h2 : splitNl ('\n' :: joinWithNl (l2 :: rest2))
          = ([], (splitNl (joinWithNl (l2 :: rest2))).1
              :: (splitNl (joinWithNl (l2 :: rest2))).2) := by
        simp [splitNl]
      have h3 : (splitNl (joinWithNl (l2 :: rest2))).1
          :: (splitNl (joinWithNl (l2 :: rest2))).2 = l2 :: rest2 :=
        ih (by simp) (fun x hx => hnl x (by simp [hx]))
      show (splitNl (l ++ '\n' :: joinWithNl (l2 :: rest2))).1
          :: (splitNl (l ++ '\n' :: joinWithNl (l2 :: rest2))).2 = l :: l2 :: rest2
      rw [h1, h2]
      simpa using h3

/-- Joining nonempty newline-free lines never ends in a newline. -/
theorem joinWithNl_getLast_ne_nl :
    ∀ (bls : List (List Char)), (∀ l ∈ bls, l ≠ [] ∧ '\n' ∉ l) →
      (joinWithNl bls).getLast? ≠ some '\n' := by
  intro bls
  induction bls with
  | nil => intro _; simp [joinWithNl]
  | cons l rest ih =>
    intro hb
    cases rest with
    | nil =>
      show l.getLast? ≠ some '\n'
      intro hsome
      have hc : '\n' ∈ l := List.mem_of_mem_getLast? (by simp [hsome])
      exact (hb l (by simp)).2 hc
    | cons l2 rest2 =>
      show (l ++ '\n' :: joinWithNl (l2 :: rest2)).getLast? ≠ some '\n'
      have hne : ('\n' :: joinWithNl (l2 :: rest2)) ≠ [] := by simp
      rw [List.getLast?_append_of_ne_nil l hne]
      have hJ : joinWithNl (l2 :: rest2) ≠ [] := by
        cases rest2 with
        | nil =>
          show l2 ≠ []
          exact (hb l2 (by simp)).1
        | cons l3 rest3 =>
          show l2 ++ '\n' :: joinWithNl (l3 :: rest3) ≠ []
          simp [(hb l2 (by simp)).1]
      obtain ⟨j, jrest, hJeq⟩ := List.exists_cons_of_ne_nil hJ
      rw [hJeq, List.getLast?_cons_cons]
      have hih := ih (fun x hx => hb x (by simp [hx]))
      rw [hJeq] at hih
      exact hih

/-- For a width bounding every word strictly, the greedy packing of one
segment yields only nonempty, width-bounded, newline-free lines. -/
theorem spaceSplitLine_good (w : Nat) (line : List Char)
    (hw : ∀ wd ∈ splitWS line, wd.length < w) :
    ∀ l ∈ spaceSplitLine w line, l ≠ [] ∧ l.length ≤ w ∧ '\n' ∉ l := by
  have hP : ('\n' ∉ ((splitWS line).foldl (spaceSplitStep w) ([], [])).1) ∧
      ((((splitWS line).foldl (spaceSplitStep w) ([], [])).1 = [])
        ∨ (((splitWS line).foldl (spaceSplitStep w) ([], [])).1.length < w)) ∧
      ∀ l ∈ ((splitWS line).foldl (spaceSplitStep w) ([], [])).2,
        l ≠ [] ∧ l.length ≤ w ∧ '\n' ∉ l := by
    refine foldl_preserve (fun (st : List Char × List (List Char)) =>
        '\n' ∉ st.1 ∧ (st.1 = [] ∨ st.1.length < w) ∧
          ∀ l ∈ st.2, l ≠ [] ∧ l.length ≤ w ∧ '\n' ∉ l)
      (spaceSplitStep w) (splitWS line) ([], []) ⟨by simp, Or.inl rfl, by simp⟩ ?_
    intro st wd hst hwd
    have hwdlen : wd.length < w := hw wd hwd
    have hwdnl : '\n' ∉ wd := fun hmem => by
      have := splitWS_no_ws line wd hwd '\n' hmem
      simp [rustWhitespace] at this
    obtain ⟨h1, h2, h3⟩ := hst
    unfold spaceSplitStep
    by_cases hc : byteLen st.1 + wd.length + 1 < w
    · rw [if_pos hc]
      refine ⟨?_, Or.inr ?_, h3⟩
      · intro hmem
        rcases List.mem_append.mp hmem with hml | hmr
        · rcases List.mem_append.mp hml with hmll | hmlr
          · exact h1 hmll
          · by_cases hbz : byteLen st.1 = 0
            · simp [hbz] at hmlr
            · simp [hbz] at hmlr
        · exact hwdnl hmr
      · by_cases hbz : byteLen st.1 = 0
        · have hse : st.1 = [] := (byteLen_eq_zero st.1).mp hbz
          rw [hbz] at hc
          simp [hse, byteLen]
          omega
        · have hlb := length_le_byteLen st.1
          simp [hbz]
          omega
    · rw [if_neg hc, if_pos hwdlen]
      have hbls : ∀ l ∈ (if st.1.isEmpty then st.2 else st.2 ++ [st.1]),
          l ≠ [] ∧ l.length ≤ w ∧ '\n' ∉ l := by
        by_cases hse : st.1.isEmpty
        · simpa [hse] using h3
        · rw [if_neg hse]
          intro l hl
          rcases List.mem_append.mp hl with hml | hmr
          · exact h3 l hml
          · have hl1 : l = st.1 := by simpa using hmr
            have hne : st.1 ≠ [] := by
              intro he
              rw [he] at hse
              simp at hse
            rcases h2 with h2a | h2b
            · exact absurd h2a hne
            · rw [hl1]
              exact ⟨hne, Nat.le_of_lt h2b, h1⟩
      exact ⟨hwdnl, Or.inr hwdlen, hbls⟩
  obtain ⟨h1, h2, h3⟩ := hP
  unfold spaceSplitLine
  by_cases hse : ((splitWS line).foldl (spaceSplitStep w) ([], [])).1.isEmpty
  · simpa [hse] using h3
  · rw [if_neg hse]
    intro l hl
    rcases List.mem_append.mp hl with hml | hmr
    · exact h3 l hml
    · have hl1 : l = ((splitWS line).foldl (spaceSplitStep w) ([], [])).1 := by
        simpa using hmr
      subst hl1
      have hne : ((splitWS line).foldl (spaceSplitStep w) ([], [])).1 ≠ [] := by
        intro he
        rw [he] at hse
        simp at hse
      rcases h2 with h2a | h2b
      · exact absurd h2a hne
      · exact ⟨hne, Nat.le_of_lt h2b, h1⟩

/-- C1 (amended): for a single-line input (no embedded newline) in which
every whitespace-delimited word is strictly shorter than the width W,
every line of space_split's output is at most W characters long, and the
output ends with a newline exactly when the input does (never, for such
inputs).  On inputs with embedded newlines, the segments are rejoined
with no separator, and a word of exactly W characters gains a spurious
trailing newline, so the unrestricted claim fails. -/
theorem space_split_single_line (w : Nat) (src : List Char)
    (hnl : '\n' ∉ src)
    (hw : ∀ wd ∈ splitWS src, wd.length < w) :
    (∀ line ∈ splitLines (space_split w src), line.length ≤ w) ∧
    ((space_split w src).getLast? = some '\n' ↔ src.getLast? = some '\n') := by
  have hsrc_last : ¬(src.getLast? = some '\n') := fun h =>
    hnl (List.mem_of_mem_getLast? (by simp [h]))
  have hsegs : splitLines src = [src] := by
    unfold splitLines
    rw [splitNl_of_no_nl src hnl]
  have hout : space_split w src = joinWithNl (spaceSplitLine w src) := by
    unfold space_split
    rw [hsegs, if_neg hsrc_last]
    simp
  have hgood := spaceSplitLine_good w src hw
  by_cases hbe : spaceSplitLine w src = []
  · rw [hout, hbe]
    constructor
    · intro line hline
      have hempty : line = [] := by
        simpa [joinWithNl, splitLines, splitNl] using hline
      simp [hempty]
    · simp [joinWithNl, hsrc_last]
  · constructor
    · intro line hline
      rw [hout, splitLines_joinWithNl (spaceSplitLine w src) hbe
        (fun l hl => (hgood l hl).2.2)] at hline
      exact (hgood line hline).2.1
    · rw [hout]
      constructor
      · intro h
        exact absurd h (joinWithNl_getLast_ne_nl (spaceSplitLine w src)
          (fun l hl => ⟨(hgood l hl).1, (hgood l hl).2.2⟩))
      · intro h
        exact absurd h hsrc_last

/-- Witness for C1 at width 16 and the single-line doc input. -/
theorem space_split_single_line_witness :
    (∀ line ∈ splitLines (space_split 16
        ['S', 'e', 'n', 't', 'e', 'n', 'c', 'e', ' ', 'w', 'i', 't', 'h', ' ',
         't', 'w', 'o', ' ', 'l', 'i', 'n', 'e', 's', '.']), line.length ≤ 16) ∧
    ((space_split 16
        ['S', 'e', 'n', 't', 'e', 'n', 'c', 'e', ' ', 'w', 'i', 't', 'h', ' ',
         't', 'w', 'o', ' ', 'l', 'i', 'n', 'e', 's', '.']).getLast? = some '\n'
      ↔ (['S', 'e', 'n', 't', 'e', 'n', 'c', 'e', ' ', 'w', 'i', 't', 'h', ' ',
         't', 'w', 'o', ' ', 'l', 'i', 'n', 'e', 's', '.'] : List Char).getLast? = some '\n') :=
  space_split_single_line 16
    ['S', 'e', 'n', 't', 'e', 'n', 'c', 'e', ' ', 'w', 'i', 't', 'h', ' ',
     't', 'w', 'o', ' ', 'l', 'i', 'n', 'e', 's', '.'] (by decide) (by decide)
